import Mathlib

/-!
Verification of the activity-aggregation core of the
cosmic-ext-applet-privacy-indicator applet.

The definitions below are a shallow embedding of `src/applet.rs`
(the `PrivacyIndicator` state and its `update` function) and of
`src/camera.rs` (`open_cameras` and the watch masks registered by
`get_inotify`).  Rust's `HashMap<PathBuf, (i32, i32)>` is modelled as an
association list with string keys and integer pairs; its `entry` API
(`and_modify` / `or_insert`) becomes the recursive functions `camOpen`
and `camClose` that modify the entry when the key is present and append
a fresh entry otherwise.  `HashSet<u32>` becomes `Finset ℕ`.
Filesystem reads performed by `open_cameras` are abstracted as explicit
inputs: the presence of `/.flatpak-info`, and the listing of `/proc`
with, per process, the result of reading its `fd` directory and of
following each descriptor link.
-/

/-- One ref-count map: camera device path ↦ `(count, floor)`,
embedding `HashMap<PathBuf, (i32, i32)>`. -/
abbrev CamMap := List (String × Int × Int)

/-- Lookup of a path in the ref-count map (`HashMap` key lookup). -/
def camLookup (p : String) : CamMap → Option (Int × Int)
  | [] => none
  | (q, v) :: rest => if q = p then some v else camLookup p rest

/-- `Message::CameraOpen`: `cameras.entry(path).and_modify(|v| v.0 += 1).or_insert((1, 0))`.
Also the fold step of `open_cameras` in `camera.rs`, which uses the same
`and_modify(|fds| fds.0 += 1).or_insert((1, 0))` upsert. -/
def camOpen : CamMap → String → CamMap
  | [], p => [(p, (1, 0))]
  | (q, v) :: rest, p =>
      if q = p then (q, (v.1 + 1, v.2)) :: rest else (q, v) :: camOpen rest p

/-- `Message::CameraClose`:
`cameras.entry(path).and_modify(|v| { v.0 -= 1; v.1 = v.1.min(v.0); }).or_insert((0, 0))`. -/
def camClose : CamMap → String → CamMap
  | [], p => [(p, (0, 0))]
  | (q, v) :: rest, p =>
      if q = p then (q, (v.1 - 1, min v.2 (v.1 - 1))) :: rest
      else (q, v) :: camClose rest p

/-- `Message::CameraReset`: `cameras.remove(&path)`. -/
def camReset (m : CamMap) (p : String) : CamMap :=
  m.filter fun e => decide (e.1 ≠ p)

/-- The camera activity fold of `Message::Tick`:
`cameras.values().fold(0, |acc, (shares, min)| acc + shares - min)`. -/
def camFold (m : CamMap) : Int :=
  m.foldl (fun acc e => acc + e.2.1 - e.2.2) 0

/-- The three exposed booleans (`struct Shared` in `applet.rs`). -/
structure Shared where
  microphone : Bool
  screenshare : Bool
  camera : Bool
deriving DecidableEq

/-- The aggregator state (`struct PrivacyIndicator`); the `cosmic_time`
timeline is reduced to the last instant passed to `Timeline::now`. -/
structure PrivacyIndicator where
  timeline : Int
  shared : Shared
  microphones : Finset Nat
  screenshares : Finset Nat
  cameras : CamMap
deriving DecidableEq

/-- `PrivacyIndicator::default()`: empty sets, empty map, all-false snapshot. -/
def initState : PrivacyIndicator :=
  { timeline := 0
    shared := { microphone := false, screenshare := false, camera := false }
    microphones := ∅
    screenshares := ∅
    cameras := [] }

/-- `enum Message` of `applet.rs` (instants and ids as integers). -/
inductive Message where
  | Tick
  | RecTick (now : Int)
  | ScreenShareAdd (i : Nat)
  | MicrophoneAdd (i : Nat)
  | PipeWireNodeRemove (i : Nat)
  | CameraOpen (path : String)
  | CameraClose (path : String)
  | CameraPrevious (cameras : CamMap)
  | CameraReset (path : String)
deriving DecidableEq

/-- `PrivacyIndicator::update`, branch for branch. -/
def update (s : PrivacyIndicator) (m : Message) : PrivacyIndicator :=
  match m with
  | .Tick =>
      { s with shared :=
          { microphone := !decide (s.microphones = ∅)
            screenshare := !decide (s.screenshares = ∅)
            camera := decide (0 < camFold s.cameras) } }
  | .CameraPrevious cams => { s with cameras := cams }
  | .CameraOpen p => { s with cameras := camOpen s.cameras p }
  | .CameraClose p => { s with cameras := camClose s.cameras p }
  | .CameraReset p => { s with cameras := camReset s.cameras p }
  | .ScreenShareAdd i => { s with screenshares := insert i s.screenshares }
  | .MicrophoneAdd i => { s with microphones := insert i s.microphones }
  | .PipeWireNodeRemove i =>
      { s with screenshares := s.screenshares.erase i
               microphones := s.microphones.erase i }
  | .RecTick now => { s with timeline := now }

/-- Processing a list of messages in order. -/
def runMessages (s : PrivacyIndicator) (msgs : List Message) : PrivacyIndicator :=
  msgs.foldl update s

/-- Camera events handled by the aggregator's ref-count map. -/
inductive CamEvent where
  | copen (p : String)
  | cclose (p : String)
  | creset (p : String)

/-- Effect of one camera event on the ref-count map. -/
def applyCamEvent (m : CamMap) : CamEvent → CamMap
  | .copen p => camOpen m p
  | .cclose p => camClose m p
  | .creset p => camReset m p

/-- Effect of a sequence of camera events. -/
def applyCamEvents (m : CamMap) (evs : List CamEvent) : CamMap :=
  evs.foldl applyCamEvent m

/-- The ref-count invariant: `count − floor ≥ 0` for every entry. -/
def CamInv (m : CamMap) : Prop := ∀ e ∈ m, 0 ≤ e.2.1 - e.2.2

/-- Contribution of one path to the camera activity sum. -/
def contrib (m : CamMap) (p : String) : Int :=
  match camLookup p m with
  | some v => v.1 - v.2
  | none => 0

/-! ### Baseline Scanner (`open_cameras` in `camera.rs`) -/

/-- One entry of `/proc` as `open_cameras` reads it: the entry name, and
the result of `read_dir(pid/fd)` (`none` if it failed), each descriptor
being the result of `read_link` (`none` if it failed). -/
structure ProcEntry where
  name : String
  fds : Option (List (Option String))

/-- The camera device paths gathered by `open_cameras` before its fold:
keep numerically-named `/proc` entries, flatten their readable descriptor
tables, and keep link targets starting with `"/dev/video"`. -/
def camPaths (pids : List ProcEntry) : List String :=
  (((pids.filter fun pid => pid.name.all Char.isDigit).filterMap
      fun pid => pid.fds).flatten).filterMap
    fun fd =>
      match fd with
      | none => none
      | some path => if path.startsWith "/dev/video" then some path else none

/-- `open_cameras`: empty when `/.flatpak-info` exists, empty when
`read_dir("/proc")` fails (`unwrap_or_default`), otherwise the fold of
the camera-path stream into a ref-count map seeded at `(1, 0)`. -/
def open_cameras (flatpakInfo : Bool) (procDir : Option (List ProcEntry)) : CamMap :=
  if flatpakInfo then []
  else
    match procDir with
    | none => []
    | some pids => (camPaths pids).foldl camOpen []

/-! ### Watch masks registered by `get_inotify` (`camera.rs`) -/

/-- The inotify mask bits that `camera.rs` mentions. -/
inductive WatchFlag where
  | ATTRIB
  | CREATE
  | OPEN
  | CLOSE
  | DELETE_SELF
deriving DecidableEq

/-- The mask of the directory-level watch:
`inotify.watches().add("/dev", WatchMask::ATTRIB)`. -/
def devWatchMask : List WatchFlag := [.ATTRIB]

/-- The mask of each per-device watch:
`WatchMask::OPEN | WatchMask::CLOSE | WatchMask::DELETE_SELF`. -/
def deviceWatchMask : List WatchFlag := [.OPEN, .CLOSE, .DELETE_SELF]

/-! ### Helper lemmas -/

lemma camLookup_camOpen (m : CamMap) (a p : String) :
    camLookup p (camOpen m a) =
      if p = a then
        match camLookup p m with
        | some v => some (v.1 + 1, v.2)
        | none => some (1, 0)
      else camLookup p m := by
  induction m with
  | nil =>
      by_cases h : p = a
      · subst h; simp [camOpen, camLookup]
      · have h' : ¬ a = p := fun hx => h hx.symm
        simp [camOpen, camLookup, h, h']
  | cons e rest ih =>
      obtain ⟨q, v⟩ := e
      by_cases hqa : q = a
      · subst hqa
        by_cases hqp : q = p
        · subst hqp
          simp [camOpen, camLookup]
        · have hpq : ¬ p = q := fun hx => hqp hx.symm
          simp [camOpen, camLookup, hqp, hpq]
      · by_cases hqp : q = p
        · subst hqp
          simp [camOpen, camLookup, hqa]
        · simp [camOpen, camLookup, hqa, hqp, ih]

lemma camLookup_camClose (m : CamMap) (a p : String) :
    camLookup p (camClose m a) =
      if p = a then
        match camLookup p m with
        | some v => some (v.1 - 1, min v.2 (v.1 - 1))
        | none => some (0, 0)
      else camLookup p m := by
  induction m with
  | nil =>
      by_cases h : p = a
      · subst h; simp [camClose, camLookup]
      · have h' : ¬ a = p := fun hx => h hx.symm
        simp [camClose, camLookup, h, h']
  | cons e rest ih =>
      obtain ⟨q, v⟩ := e
      by_cases hqa : q = a
      · subst hqa
        by_cases hqp : q = p
        · subst hqp
          simp [camClose, camLookup]
        · have hpq : ¬ p = q := fun hx => hqp hx.symm
          simp [camClose, camLookup, hqp, hpq]
      · by_cases hqp : q = p
        · subst hqp
          simp [camClose, camLookup, hqa]
        · simp [camClose, camLookup, hqa, hqp, ih]

lemma camLookup_camReset_self (m : CamMap) (p : String) :
    camLookup p (camReset m p) = none := by
  induction m with
  | nil => simp [camReset, camLookup]
  | cons e rest ih =>
      obtain ⟨q, v⟩ := e
      by_cases hq : q = p
      · subst hq
        simpa [camReset, List.filter_cons] using ih
      · simpa [camReset, List.filter_cons, hq, camLookup] using ih

lemma camLookup_camOpen_of_none (m : CamMap) (p : String)
    (h : camLookup p m = none) : camLookup p (camOpen m p) = some (1, 0) := by
  simp [camLookup_camOpen, h]

lemma camLookup_camClose_of_none (m : CamMap) (p : String)
    (h : camLookup p m = none) : camLookup p (camClose m p) = some (0, 0) := by
  simp [camLookup_camClose, h]

lemma camInv_cons {e : String × Int × Int} {m : CamMap} :
    CamInv (e :: m) ↔ 0 ≤ e.2.1 - e.2.2 ∧ CamInv m := by
  simp [CamInv]

lemma camInv_camOpen {m : CamMap} (h : CamInv m) (p : String) :
    CamInv (camOpen m p) := by
  induction m with
  | nil =>
      intro e he
      simp [camOpen] at he
      subst he; norm_num
  | cons e rest ih =>
      obtain ⟨q, v⟩ := e
      rw [camInv_cons] at h
      by_cases hq : q = p
      · subst hq
        have hstep : camOpen ((q, v) :: rest) q = (q, (v.1 + 1, v.2)) :: rest := by
          simp [camOpen]
        rw [hstep, camInv_cons]
        refine ⟨?_, h.2⟩
        have h1 := h.1
        dsimp only at h1 ⊢
        omega
      · simp only [camOpen, if_neg hq]
        rw [camInv_cons]
        exact ⟨h.1, ih h.2⟩

lemma camInv_camClose {m : CamMap} (h : CamInv m) (p : String) :
    CamInv (camClose m p) := by
  induction m with
  | nil =>
      intro e he
      simp [camClose] at he
      subst he; norm_num
  | cons e rest ih =>
      obtain ⟨q, v⟩ := e
      rw [camInv_cons] at h
      by_cases hq : q = p
      · subst hq
        have hstep : camClose ((q, v) :: rest) q =
            (q, (v.1 - 1, min v.2 (v.1 - 1))) :: rest := by
          simp [camClose]
        rw [hstep, camInv_cons]
        refine ⟨?_, h.2⟩
        have hmin := min_le_right v.2 (v.1 - 1)
        dsimp only at hmin ⊢
        omega
      · simp only [camClose, if_neg hq]
        rw [camInv_cons]
        exact ⟨h.1, ih h.2⟩

lemma camInv_camReset {m : CamMap} (h : CamInv m) (p : String) :
    CamInv (camReset m p) :=
  fun e he => h e (List.mem_of_mem_filter he)

lemma camInv_applyCamEvent {m : CamMap} (h : CamInv m) (ev : CamEvent) :
    CamInv (applyCamEvent m ev) := by
  cases ev with
  | copen p => exact camInv_camOpen h p
  | cclose p => exact camInv_camClose h p
  | creset p => exact camInv_camReset h p

lemma camInv_applyCamEvents {m : CamMap} (h : CamInv m) (evs : List CamEvent) :
    CamInv (applyCamEvents m evs) := by
  induction evs generalizing m with
  | nil => exact h
  | cons ev evs ih => exact ih (camInv_applyCamEvent h ev)

/-- Number of occurrences of a path in a list of paths. -/
def countStr (p : String) : List String → Nat
  | [] => 0
  | a :: l => (if a = p then 1 else 0) + countStr p l

lemma camLookup_foldl_camOpen (l : List String) (m : CamMap) (p : String) :
    camLookup p (l.foldl camOpen m) =
      match camLookup p m with
      | some v => some (v.1 + countStr p l, v.2)
      | none =>
          if countStr p l = 0 then none else some ((countStr p l : Int), 0) := by
  induction l generalizing m with
  | nil => cases h : camLookup p m <;> simp [h, countStr]
  | cons a l ih =>
      simp only [List.foldl_cons]
      rw [ih, camLookup_camOpen]
      by_cases hpa : p = a
      · subst hpa
        cases h : camLookup p m with
        | none =>
            have hne : ¬ (1 + countStr p l = 0) := by omega
            simp only [h, if_pos rfl, countStr]
            simp [hne]
        | some v =>
            simp only [h, if_pos rfl, countStr]
            push_cast
            ring_nf
      · have hap : ¬ a = p := fun hx => hpa hx.symm
        have hcount : countStr p (a :: l) = countStr p l := by
          simp [countStr, hap]
        rw [if_neg hpa, hcount]

lemma camOpen_entry {P : String → Prop} {m : CamMap} {p : String}
    (hp : P p) (hm : ∀ e ∈ m, P e.1 ∧ 1 ≤ e.2.1 ∧ e.2.2 = 0) :
    ∀ e ∈ camOpen m p, P e.1 ∧ 1 ≤ e.2.1 ∧ e.2.2 = 0 := by
  induction m with
  | nil =>
      intro e he
      simp [camOpen] at he
      subst he
      exact ⟨hp, by norm_num, rfl⟩
  | cons e rest ih =>
      obtain ⟨q, v⟩ := e
      intro x hx
      by_cases hq : q = p
      · subst hq
        have hstep : camOpen ((q, v) :: rest) q = (q, (v.1 + 1, v.2)) :: rest := by
          simp [camOpen]
        rw [hstep] at hx
        rcases List.mem_cons.mp hx with hx | hx
        · subst hx
          have hhead := hm (q, v) (List.mem_cons_self _ _)
          refine ⟨hhead.1, ?_, hhead.2.2⟩
          have := hhead.2.1
          dsimp only at *
          omega
        · exact hm x (List.mem_cons_of_mem _ hx)
      · simp only [camOpen, if_neg hq] at hx
        rcases List.mem_cons.mp hx with hx | hx
        · subst hx
          exact hm (q, v) (List.mem_cons_self _ _)
        · exact ih (fun e he => hm e (List.mem_cons_of_mem _ he)) x hx

lemma foldl_camOpen_entry {P : String → Prop} (l : List String)
    (hl : ∀ x ∈ l, P x) (m : CamMap)
    (hm : ∀ e ∈ m, P e.1 ∧ 1 ≤ e.2.1 ∧ e.2.2 = 0) :
    ∀ e ∈ l.foldl camOpen m, P e.1 ∧ 1 ≤ e.2.1 ∧ e.2.2 = 0 := by
  induction l generalizing m with
  | nil => exact hm
  | cons a l ih =>
      simp only [List.foldl_cons]
      exact ih (fun x hx => hl x (List.mem_cons_of_mem _ hx)) _
        (camOpen_entry (hl a (List.mem_cons_self _ _)) hm)

lemma camPaths_startsWith (pids : List ProcEntry) :
    ∀ p ∈ camPaths pids, p.startsWith "/dev/video" = true := by
  intro p hp
  simp only [camPaths, List.mem_filterMap] at hp
  obtain ⟨fd, _, hfd⟩ := hp
  cases fd with
  | none => simp at hfd
  | some path =>
      by_cases h : path.startsWith "/dev/video" = true
      · simp only [h, if_pos rfl] at hfd
        simp only [if_true] at hfd
        cases hfd
        exact h
      · simp [h] at hfd

lemma open_cameras_entry (pids : List ProcEntry) :
    ∀ e ∈ open_cameras false (some pids),
      e.1.startsWith "/dev/video" = true ∧ 1 ≤ e.2.1 ∧ e.2.2 = 0 := by
  intro e he
  simp only [open_cameras, if_neg Bool.false_ne_true] at he
  exact foldl_camOpen_entry (camPaths pids) (camPaths_startsWith pids) []
    (by intro x hx; simp at hx) e he

lemma camInv_open_cameras (fp : Bool) (proc : Option (List ProcEntry)) :
    CamInv (open_cameras fp proc) := by
  cases fp with
  | true => intro e he; simp [open_cameras] at he
  | false =>
      cases proc with
      | none => intro e he; simp [open_cameras] at he
      | some pids =>
          intro e he
          have := open_cameras_entry pids e he
          omega

lemma camFold_eq_sum (m : CamMap) :
    camFold m = (m.map fun e => e.2.1 - e.2.2).sum := by
  suffices h : ∀ acc : Int,
      m.foldl (fun acc e => acc + e.2.1 - e.2.2) acc =
        acc + (m.map fun e => e.2.1 - e.2.2).sum by
    simpa [camFold] using h 0
  induction m with
  | nil => intro acc; simp
  | cons e rest ih =>
      intro acc
      simp only [List.foldl_cons, List.map_cons, List.sum_cons, ih]
      ring

/-! ### Claim theorems -/

/-- C1: on every recompute tick, the published snapshot is recomputed wholesale
from the underlying state: `microphone` equals "the microphone id-set is
non-empty", `screenshare` equals "the screen-share id-set is non-empty", and
`camera` equals "the sum over all camera ref-count entries of `count − floor`
is strictly positive", for every state of the sets and map. -/
theorem C1_tick_recomputes_snapshot (s : PrivacyIndicator) :
    ((update s .Tick).shared.microphone = true ↔ s.microphones.Nonempty) ∧
    ((update s .Tick).shared.screenshare = true ↔ s.screenshares.Nonempty) ∧
    ((update s .Tick).shared.camera = true ↔
      0 < (s.cameras.map fun e => e.2.1 - e.2.2).sum) := by
  refine ⟨?_, ?_, ?_⟩ <;>
    simp [update, Finset.nonempty_iff_ne_empty, camFold_eq_sum]

/-- C2: for every sequence of camera-open, camera-close and camera-reset events
applied to a ref-count map that starts empty or is seeded from the Baseline
Scanner's output, every tracked path's entry satisfies `count − floor ≥ 0`
after each event. -/
theorem C2_camera_refcount_invariant (m₀ : CamMap)
    (h : m₀ = [] ∨ ∃ fp proc, m₀ = open_cameras fp proc) (evs : List CamEvent) :
    CamInv (applyCamEvents m₀ evs) := by
  have h0 : CamInv m₀ := by
    rcases h with h | ⟨fp, proc, h⟩
    · subst h; intro e he; simp at he
    · subst h; exact camInv_open_cameras fp proc
  exact camInv_applyCamEvents h0 evs

/-- Witness for C2 at the empty map and a concrete event sequence. -/
theorem C2_witness :
    CamInv (applyCamEvents []
      [CamEvent.cclose "/dev/video0", CamEvent.copen "/dev/video0",
       CamEvent.creset "/dev/video0"]) :=
  C2_camera_refcount_invariant [] (Or.inl rfl) _

/-- C3 fails on the code: `entry(path).and_modify(..).or_insert((0, 0))` does
not run `and_modify` on a vacant entry, so a close on an absent path inserts
`(0, 0)` and never produces `(−1, −1)`. -/
theorem C3_counterexample :
    camLookup "/dev/video0" (camClose [] "/dev/video0") = some (0, 0) ∧
    camLookup "/dev/video0" (camClose [] "/dev/video0") ≠ some (-1, -1) := by
  constructor <;> decide

/-- C3 (amended): processing a camera-close event for a path absent from the
ref-count map creates the entry `(0, 0)` and does not apply the decrement,
i.e. the resulting entry for that path is `(0, 0)`. -/
theorem C3_close_absent_inserts_zero (m : CamMap) (p : String)
    (h : camLookup p m = none) :
    camLookup p (camClose m p) = some (0, 0) :=
  camLookup_camClose_of_none m p h

/-- Witness for the amended C3 at the empty map. -/
theorem C3_witness :
    camLookup "/dev/video0" ([] : CamMap) = none ∧
    camLookup "/dev/video0" (camClose [] "/dev/video0") = some (0, 0) :=
  ⟨rfl, C3_close_absent_inserts_zero [] "/dev/video0" rfl⟩

/-- C4: starting from a ref-count map with no entry for a path, a camera-close
on that path leaves it contributing exactly 0 to the camera activity sum, and
a subsequent camera-open makes it contribute exactly 1. -/
theorem C4_fresh_close_then_open (m : CamMap) (p : String)
    (h : camLookup p m = none) :
    contrib (camClose m p) p = 0 ∧
    contrib (camOpen (camClose m p) p) p = 1 := by
  have h1 : camLookup p (camClose m p) = some (0, 0) :=
    camLookup_camClose_of_none m p h
  constructor
  · simp [contrib, h1]
  · have h2 : camLookup p (camOpen (camClose m p) p) = some (1, 0) := by
      rw [camLookup_camOpen]
      simp [h1]
    simp [contrib, h2]

/-- Witness for C4 at the empty map. -/
theorem C4_witness :
    camLookup "/dev/video0" ([] : CamMap) = none ∧
    contrib (camClose [] "/dev/video0") "/dev/video0" = 0 ∧
    contrib (camOpen (camClose [] "/dev/video0") "/dev/video0") "/dev/video0" = 1 := by
  refine ⟨rfl, ?_⟩
  exact C4_fresh_close_then_open [] "/dev/video0" rfl

/-- C5: seeding with `{"/dev/video0" ↦ (2, 0)}` makes a recompute report the
camera active; two closes drive the activity sum to 0 (recompute reports
inactive); a third close keeps the sum at 0. -/
theorem C5_baseline_seeding_scenario :
    (runMessages initState
      [.CameraPrevious [("/dev/video0", (2, 0))], .Tick]).shared.camera = true ∧
    camFold (runMessages initState
      [.CameraPrevious [("/dev/video0", (2, 0))],
       .CameraClose "/dev/video0", .CameraClose "/dev/video0"]).cameras = 0 ∧
    (runMessages initState
      [.CameraPrevious [("/dev/video0", (2, 0))],
       .CameraClose "/dev/video0", .CameraClose "/dev/video0",
       .Tick]).shared.camera = false ∧
    camFold (runMessages initState
      [.CameraPrevious [("/dev/video0", (2, 0))],
       .CameraClose "/dev/video0", .CameraClose "/dev/video0",
       .CameraClose "/dev/video0"]).cameras = 0 := by
  decide

/-- C6: for every prior history on a path, reset followed by open leaves that
path's ref-count entry at `(1, 0)`, identical to the entry produced by the
very first open ever seen for a path. -/
theorem C6_reset_then_open (m : CamMap) (p : String) :
    camLookup p (camOpen (camReset m p) p) = some (1, 0) ∧
    camLookup p (camOpen [] p) = some (1, 0) :=
  ⟨camLookup_camOpen_of_none _ p (camLookup_camReset_self m p),
   camLookup_camOpen_of_none [] p rfl⟩

/-- C7: microphone-add and screen-share-add are idempotent on the whole state;
node-remove erases the id from both sets, is a no-op on a set not containing
the id, and is idempotent. -/
theorem C7_set_idempotence (s : PrivacyIndicator) (i : Nat) :
    update (update s (.MicrophoneAdd i)) (.MicrophoneAdd i) =
      update s (.MicrophoneAdd i) ∧
    update (update s (.ScreenShareAdd i)) (.ScreenShareAdd i) =
      update s (.ScreenShareAdd i) ∧
    (update s (.PipeWireNodeRemove i)).microphones = s.microphones.erase i ∧
    (update s (.PipeWireNodeRemove i)).screenshares = s.screenshares.erase i ∧
    (i ∉ s.microphones →
      (update s (.PipeWireNodeRemove i)).microphones = s.microphones) ∧
    (i ∉ s.screenshares →
      (update s (.PipeWireNodeRemove i)).screenshares = s.screenshares) ∧
    update (update s (.PipeWireNodeRemove i)) (.PipeWireNodeRemove i) =
      update s (.PipeWireNodeRemove i) := by
  refine ⟨?_, ?_, rfl, rfl, ?_, ?_, ?_⟩
  · cases s; simp [update, Finset.insert_idem]
  · cases s; simp [update, Finset.insert_idem]
  · intro h
    simp only [update]
    exact Finset.erase_eq_self.mpr h
  · intro h
    simp only [update]
    exact Finset.erase_eq_self.mpr h
  · cases s; simp [update, Finset.erase_idem]

/-- Witness for C7 at the initial state and id 0. -/
theorem C7_witness :
    update (update initState (.MicrophoneAdd 0)) (.MicrophoneAdd 0) =
      update initState (.MicrophoneAdd 0) ∧
    update (update initState (.ScreenShareAdd 0)) (.ScreenShareAdd 0) =
      update initState (.ScreenShareAdd 0) ∧
    (update initState (.PipeWireNodeRemove 0)).microphones =
      initState.microphones.erase 0 ∧
    (update initState (.PipeWireNodeRemove 0)).screenshares =
      initState.screenshares.erase 0 ∧
    (0 ∉ initState.microphones →
      (update initState (.PipeWireNodeRemove 0)).microphones =
        initState.microphones) ∧
    (0 ∉ initState.screenshares →
      (update initState (.PipeWireNodeRemove 0)).screenshares =
        initState.screenshares) ∧
    update (update initState (.PipeWireNodeRemove 0)) (.PipeWireNodeRemove 0) =
      update initState (.PipeWireNodeRemove 0) :=
  C7_set_idempotence initState 0

/-- C8 fails on the code: `get_inotify` registers the `/dev` watch with
`WatchMask::ATTRIB` alone, so the mask does not cover create events. -/
theorem C8_counterexample : WatchFlag.CREATE ∉ devWatchMask := by
  decide

/-- C8 (amended): the directory-level watch on `/dev` uses a mask covering
attribute-change only (create is not included), while each per-device watch
covers open, close and delete-of-self. -/
theorem C8_dev_watch_mask :
    devWatchMask = [WatchFlag.ATTRIB] ∧
    WatchFlag.ATTRIB ∈ devWatchMask ∧
    deviceWatchMask = [WatchFlag.OPEN, WatchFlag.CLOSE, WatchFlag.DELETE_SELF] := by
  refine ⟨rfl, ?_, rfl⟩
  decide

/-- C9: `open_cameras` returns the empty snapshot when running inside a
flatpak sandbox or when reading `/proc` fails; otherwise every entry maps a
path starting with `/dev/video` to `(n, 0)` where `n ≥ 1` is exactly the
number of open descriptors resolving to that path. -/
theorem C9_open_cameras_graceful (pids : List ProcEntry) (p : String) :
    (∀ proc, open_cameras true proc = []) ∧
    open_cameras false none = [] ∧
    camLookup p (open_cameras false (some pids)) =
      (if countStr p (camPaths pids) = 0 then none
       else some ((countStr p (camPaths pids) : Int), 0)) ∧
    (∀ e ∈ open_cameras false (some pids),
      e.1.startsWith "/dev/video" = true ∧ 1 ≤ e.2.1 ∧ e.2.2 = 0) := by
  refine ⟨fun proc => rfl, rfl, ?_, open_cameras_entry pids⟩
  have h := camLookup_foldl_camOpen (camPaths pids) [] p
  simpa [open_cameras, camLookup] using h

/-- C10: processing any message other than the recompute tick leaves the
published three-boolean snapshot unchanged. -/
theorem C10_non_tick_preserves_shared (s : PrivacyIndicator) (m : Message)
    (h : m ≠ Message.Tick) : (update s m).shared = s.shared := by
  cases m
  case Tick => exact absurd rfl h
  all_goals rfl

/-- Witness for C10 at the initial state and an animation tick. -/
theorem C10_witness :
    (update initState (Message.RecTick 0)).shared = initState.shared :=
  C10_non_tick_preserves_shared initState (Message.RecTick 0) (by decide)
